import Mathlib

/-
Verification of the BCR read-merging CLI pipeline (src/bcr_merge_cli.py).

Shallow embedding conventions:
- Python strings are Lean `String`; character-level operations work on `String.data`
  (a `List Char`).
- `str.strip()` is modelled with the ASCII whitespace set Python strips for the
  inputs this program handles.
- The filesystem is a predicate `fs : String -> Bool` (does this path exist);
  external tools and their effects are opaque, so `fs` is a fixed parameter of a
  run and every `Path.exists()` call in `main` consults it.
- `main` is modelled as a pure function from an environment (filesystem,
  timestamp, resolved tool locations, file contents) and a parsed-argument
  record to a trace of observable effects plus a result.  Effects modelled:
  existence checks, `mkdir -p` calls, command-line prints, external process
  executions (with working directory), and the final FASTQ-to-FASTA conversion.
  Routine informational stdout prints at the end of `main` are not events.
- An uncaught Python exception (ValueError and similar) is `MainResult.err`;
  `return n` is `MainResult.exitCode n`.
- Tool discovery (`resolve_assemblepairs_path`, `resolve_cutadapt_cmd`) probes
  the OS environment; the resolved results are environment parameters
  (`pyExe`, `assemblePairsPath`, `cutadaptCmd`), matching a configuration in
  which the tools are found.
- Numeric cutadapt parameters (threads, error rate, overlap, minimum length)
  only flow through `str(...)` into argument lists; they are carried as the
  strings they print as.
-/

/-! ## Python string primitives -/

/-- The ASCII whitespace characters removed by Python `str.strip()` and used by
`str.split()` for the inputs handled here. -/
def isPySpace (c : Char) : Bool :=
  c = ' ' || c = '\t' || c = '\n' || c = '\r' || c = '\x0b' || c = '\x0c'

/-- Drop leading whitespace (front half of `str.strip()`). -/
def stripFront (l : List Char) : List Char := l.dropWhile isPySpace

/-- Drop trailing whitespace (back half of `str.strip()`). -/
def stripBack (l : List Char) : List Char := (l.reverse.dropWhile isPySpace).reverse

/-- Python `str.strip()` on the character list. -/
def pyStripL (l : List Char) : List Char := stripBack (stripFront l)

/-- Python `str.strip()`. -/
def pyStrip (s : String) : String := ⟨pyStripL s.data⟩

/-- Accumulator pass of Python `str.split()` (split on whitespace runs,
no empty tokens). -/
def pyWordsAux (acc : List Char) : List Char → List (List Char)
  | [] => if acc = [] then [] else [acc.reverse]
  | c :: rest =>
    if isPySpace c then
      if acc = [] then pyWordsAux [] rest else acc.reverse :: pyWordsAux [] rest
    else
      pyWordsAux (c :: acc) rest

/-- Python `str.split()` with no arguments. -/
def pyWords (l : List Char) : List (List Char) := pyWordsAux [] l

/-- Does `sep` occur as a contiguous substring (Python `sep in s`)? -/
def containsSub (sep : List Char) : List Char → Bool
  | [] => sep.isPrefixOf []
  | c :: rest => sep.isPrefixOf (c :: rest) || containsSub sep rest

/-- Python `s.split(sep)[0]` for a nonempty separator: everything before the
first occurrence of `sep`, or all of `s` when `sep` does not occur. -/
def takeBeforeFirst (sep : List Char) : List Char → List Char
  | [] => []
  | c :: rest =>
    if sep.isPrefixOf (c :: rest) then [] else c :: takeBeforeFirst sep rest

/-! ## Adapter normalization (sanitize_adapter / ensure_prefix / ensure_suffix) -/

/-- `sanitize_adapter`: strip surrounding whitespace, then remove every `^`
and every `$` (Python single-character `str.replace(_, "")`). -/
def sanitizeAdapter (seq : String) : String :=
  ⟨((pyStripL seq.data).filter (fun c => c ≠ '^')).filter (fun c => c ≠ '$')⟩

/-- `ensure_prefix`: strip the sequence, then prepend `pfx` unless the stripped
sequence already starts with it. -/
def ensurePrefixStr (seq pfx : String) : String :=
  let s := pyStripL seq.data
  if pfx.data.isPrefixOf s then ⟨s⟩ else ⟨pfx.data ++ s⟩

/-- `ensure_suffix`: strip the sequence, then append `sfx` unless the stripped
sequence already ends with it. -/
def ensureSuffixStr (seq sfx : String) : String :=
  let s := pyStripL seq.data
  if sfx.data.isSuffixOf s then ⟨s⟩ else ⟨s ++ sfx.data⟩

/-! ## Naming: infer_prefix, mode_label, validate_run_id -/

/-- The FASTQ filename endings recognized by `infer_prefix`, in source order. -/
def fastqSuffixes : List (List Char) :=
  [".fastq.gz".data, ".fq.gz".data, ".fastq".data, ".fq".data]

/-- The trailing R1 markers recognized by `infer_prefix`, in source order. -/
def r1Markers : List (List Char) :=
  ["_R1_001".data, "_R1".data, "-R1".data, ".R1".data]

/-- First loop of `infer_prefix`: strip the first matching FASTQ ending
(`break` after the first hit), or leave the name unchanged. -/
def stripBySuffixes : List (List Char) → List Char → List Char
  | [], nm => nm
  | s :: rest, nm =>
    if s.isSuffixOf nm then nm.take (nm.length - s.length)
    else stripBySuffixes rest nm

/-- Second loop of `infer_prefix`: return the name with the first matching
trailing marker removed, or `none` when no marker matches. -/
def markerStep : List (List Char) → List Char → Option (List Char)
  | [], _ => none
  | m :: rest, nm =>
    if m.isSuffixOf nm then some (nm.take (nm.length - m.length))
    else markerStep rest nm

/-- `infer_prefix` on the filename characters: strip a FASTQ ending, then a
trailing R1 marker; failing that, truncate at an embedded `_R1_`; otherwise
return the ending-stripped name verbatim. -/
def inferPrefixCore (nm : List Char) : List Char :=
  let n1 := stripBySuffixes fastqSuffixes nm
  match markerStep r1Markers n1 with
  | some r => r
  | none =>
    if containsSub "_R1_".data n1 then takeBeforeFirst "_R1_".data n1 else n1

/-- `infer_prefix` applied to a filename (the `.name` of the R1 path). -/
def inferPrefixOfName (nm : String) : String := ⟨inferPrefixCore nm.data⟩

/-- `MODE_LABELS` and `mode_label`: fixed display mapping with the raw mode
string as the `dict.get` default. -/
def modeLabel (mode : String) : String :=
  if mode = "merge-only" then "withoutTrim"
  else if mode = "trim-merge" then "trimThenMerge"
  else if mode = "merge-trim" then "mergeThenTrim"
  else mode

/-- The characters `validate_run_id` rejects. -/
def invalidRunIdChars : List Char := "<>:\"/\\|?*".data

/-- Does `validate_run_id` raise ValueError on this run identifier? -/
def validateRunIdFails (runId : String) : Bool :=
  runId.data.any (fun ch => invalidRunIdChars.contains ch)

/-- The ValueError message raised by `validate_run_id`. -/
def runIdErrMsg : String := "--run-id contains invalid characters: <>:\"/\\|?*"

/-- The run directory name `{prefix_base}_{mode_label}_{run_id}` built in `main`. -/
def runName (prefixBase mode runId : String) : String :=
  prefixBase ++ "_" ++ modeLabel mode ++ "_" ++ runId

/-! ## Path arithmetic (the pathlib operations `main` uses) -/

/-- `Path.name`: the component after the last slash. -/
def pathName (p : String) : String :=
  ⟨(p.data.reverse.takeWhile (fun c => c ≠ '/')).reverse⟩

/-- `Path.parent` for the paths this program builds: text before the last
slash, `"."` for a bare name, `"/"` below the root. -/
def pathParent (p : String) : String :=
  match p.data.reverse.dropWhile (fun c => c ≠ '/') with
  | [] => "."
  | _ :: t => if t = [] then "/" else ⟨t.reverse⟩

/-- `Path.is_absolute` (POSIX): starts with a slash. -/
def isAbsolutePath (p : String) : Bool := ['/'].isPrefixOf p.data

/-- `Path(a) / b`: `b` when `b` is absolute (pathlib semantics), and `"." / b`
collapses to `b`. -/
def joinPath (a b : String) : String :=
  if isAbsolutePath b then b
  else if a = "." then b
  else a ++ "/" ++ b

/-- `Path.with_suffix(".fasta")`: replace the name's extension after its last
dot (a leading dot or a dotless name just gains `.fasta`). -/
def withSuffixFasta (p : String) : String :=
  let n := (pathName p).data
  let k := (n.reverse.takeWhile (fun c => c ≠ '.')).length
  let nn :=
    if k + 1 ≥ n.length then n ++ ".fasta".data
    else n.take (n.length - 1 - k) ++ ".fasta".data
  ⟨p.data.take (p.data.length - n.length) ++ nn⟩

/-! ## fastq_to_fasta -/

/-- How `fastq_to_fasta` can fail: the explicit truncated-record ValueError, or
the IndexError from `header.split()[0]` on a header with no token. -/
inductive FqErr where
  | truncated
  | indexError
  deriving DecidableEq, Repr

/-- The message attached to each `fastq_to_fasta` failure. -/
def fqErrMsg : FqErr → String
  | .truncated => "Truncated FASTQ record detected."
  | .indexError => "IndexError: list index out of range"

/-- Header processing of one record: strip, drop one leading `@`, take the
first whitespace-separated token (`none` = IndexError on `[0]`). -/
def headerToken (header : String) : Option String :=
  let h := pyStripL header.data
  let h := if ['@'].isPrefixOf h then h.drop 1 else h
  match pyWords h with
  | [] => none
  | t :: _ => some ⟨t⟩

/-- `fastq_to_fasta` on the stream of lines `readline` yields (each with its
newline; a final line may lack one; `readline` at EOF yields `""`, so a `""`
head means end of stream).  Reads fixed 4-line records; an exhausted stream at
the quality line is the truncated-record error; each record emits the `>`
header line and the stripped sequence line. -/
def fastqToFasta : List String → Except FqErr (List String)
  | [] => .ok []
  | [h] => if h = "" then .ok [] else .error .truncated
  | [h, _] => if h = "" then .ok [] else .error .truncated
  | [h, _, _] => if h = "" then .ok [] else .error .truncated
  | h :: s :: _ :: q :: rest =>
    if h = "" then .ok []
    else if q = "" then .error .truncated
    else
      match headerToken h with
      | none => .error .indexError
      | some t =>
        match fastqToFasta rest with
        | .error e => .error e
        | .ok out => .ok ((">" ++ t ++ "\n") :: (pyStrip s ++ "\n") :: out)

/-- Did the conversion succeed? -/
def fqOk (r : Except FqErr (List String)) : Bool :=
  match r with
  | .ok _ => true
  | .error _ => false

/-! ## External command construction -/

/-- Argument list of `run_cutadapt_paired` (after `resolve_cutadapt_cmd`). -/
def cutadaptPairedCmd (cut : List String) (threadsStr g gMate a aMate eStr oStr minStr outR1 outR2 r1 r2 : String) : List String :=
  cut ++ ["-j", threadsStr,
    "-g", ensurePrefixStr g "^",
    "-G", ensurePrefixStr gMate "^",
    "-a", ensureSuffixStr a "$",
    "-A", ensureSuffixStr aMate "$",
    "-e", eStr, "-O", oStr, "--minimum-length", minStr,
    "-o", outR1, "-p", outR2, r1, r2]

/-- Argument list of `run_cutadapt_single`: both 5-prime adapters as repeated
`-g`, both 3-prime adapters as repeated `-a`, one input file. -/
def cutadaptSingleCmd (cut : List String) (threadsStr g gMate a aMate eStr oStr minStr outF inF : String) : List String :=
  cut ++ ["-j", threadsStr,
    "-g", ensurePrefixStr g "^",
    "-g", ensurePrefixStr gMate "^",
    "-a", ensureSuffixStr a "$",
    "-a", ensureSuffixStr aMate "$",
    "-e", eStr, "-O", oStr, "--minimum-length", minStr,
    "-o", outF, inF]

/-- Argument list of `run_assemblepairs`: `first = r1 if swap_r1r2 else r2`,
`second = r2 if swap_r1r2 else r1`. -/
def assemblePairsCmd (py ap r1 r2 coord rc outname log : String) (failed swap : Bool) : List String :=
  [py, ap, "align",
    "-1", if swap then r1 else r2,
    "-2", if swap then r2 else r1,
    "--coord", coord, "--rc", rc, "--outname", outname, "--log", log]
  ++ (if failed then ["--failed"] else [])

/-- The token following the first occurrence of `flag` in an argument list. -/
def argAfter : List String → String → Option String
  | [], _ => none
  | [_], _ => none
  | x :: y :: rest, flag => if x = flag then some y else argAfter (y :: rest) flag

/-! ## The environment and parsed arguments of `main` -/

/-- Ambient state `main` runs against: the filesystem, the timestamp
`datetime.now().strftime("%Y%m%d_%H%M%S")`, the resolved interpreter and tool
locations, and file contents (as `readline` line streams). -/
structure Env where
  fs : String → Bool
  now : String
  pyExe : String
  assemblePairsPath : String
  cutadaptCmd : List String
  fileLines : String → List String

/-- The parsed CLI arguments (argparse restricts `mode` to the three
workflow names; numeric parameters are carried as the strings `str(...)`
renders them to). -/
structure Config where
  mode : String
  r1 : String
  r2 : String
  outdir : Option String
  prefixArg : Option String
  assemblePrefixArg : Option String
  runId : Option String
  logArg : Option String
  threadsStr : String
  errorRateStr : String
  overlapStr : String
  minLenStr : String
  adapter5pR1 : String
  adapter5pR2 : String
  adapter3pR1 : String
  adapter3pR2 : String
  coord : String
  rc : String
  failed : Bool
  swapR1R2 : Bool
  dryRun : Bool

/-- Python `x if x else d` for an optional string argument (absent and `""`
are both falsy). -/
def orDefault (o : Option String) (d : String) : String :=
  match o with
  | none => d
  | some s => if s = "" then d else s

/-- `base_outdir`: `--outdir` or the R1 directory. -/
def baseOutdirOf (cfg : Config) : String :=
  orDefault cfg.outdir (pathParent cfg.r1)

/-- `prefix_base`: `--prefix` or the name inferred from R1. -/
def prefixBaseOf (cfg : Config) : String :=
  orDefault cfg.prefixArg (inferPrefixOfName (pathName cfg.r1))

/-- `run_id`: `--run-id` stripped when given and nonempty, else the timestamp. -/
def runIdOf (env : Env) (cfg : Config) : String :=
  match cfg.runId with
  | none => env.now
  | some s => if s = "" then env.now else pyStrip s

/-- `run_name = f"{prefix_base}_{mode_label(args.mode)}_{run_id}"`. -/
def runNameOf (env : Env) (cfg : Config) : String :=
  runName (prefixBaseOf cfg) cfg.mode (runIdOf env cfg)

/-- `run_dir = base_outdir / run_name`. -/
def runDirOf (env : Env) (cfg : Config) : String :=
  joinPath (baseOutdirOf cfg) (runNameOf env cfg)

/-- `assemble_prefix_arg`: `--assemble-prefix` or `{run_name}_presto`. -/
def assembleStemArgOf (env : Env) (cfg : Config) : String :=
  orDefault cfg.assemblePrefixArg (runNameOf env cfg ++ "_presto")

/-- `assemble_outname`: absolute override, or nested under the run directory. -/
def assembleOutnameOf (env : Env) (cfg : Config) : String :=
  if isAbsolutePath (assembleStemArgOf env cfg) then assembleStemArgOf env cfg
  else joinPath (runDirOf env cfg) (assembleStemArgOf env cfg)

/-- `log_path`: `--log` (nested under the run directory when relative) or
`{run_name}_AP_align.log` in the run directory. -/
def logPathOf (env : Env) (cfg : Config) : String :=
  match cfg.logArg with
  | some l =>
    if l = "" then joinPath (runDirOf env cfg) (runNameOf env cfg ++ "_AP_align.log")
    else if isAbsolutePath l then l
    else joinPath (runDirOf env cfg) l
  | none => joinPath (runDirOf env cfg) (runNameOf env cfg ++ "_AP_align.log")

/-- `trimmed_r1`. -/
def trimmedR1Of (env : Env) (cfg : Config) : String :=
  joinPath (runDirOf env cfg) (runNameOf env cfg ++ "_trim_R1.fastq")

/-- `trimmed_r2`. -/
def trimmedR2Of (env : Env) (cfg : Config) : String :=
  joinPath (runDirOf env cfg) (runNameOf env cfg ++ "_trim_R2.fastq")

/-- `merge_then_trim_fastq`. -/
def mergeThenTrimOf (env : Env) (cfg : Config) : String :=
  joinPath (runDirOf env cfg) (runNameOf env cfg ++ ".fastq")

/-- The reads handed to AssemblePairs: trimmed files in `trim-merge`, the raw
inputs otherwise. -/
def assembleR1Of (env : Env) (cfg : Config) : String :=
  if cfg.mode = "trim-merge" then trimmedR1Of env cfg else cfg.r1

/-- Second read handed to AssemblePairs. -/
def assembleR2Of (env : Env) (cfg : Config) : String :=
  if cfg.mode = "trim-merge" then trimmedR2Of env cfg else cfg.r2

/-- The paired-trim command `main` builds in `trim-merge` mode. -/
def pairedCmdOf (env : Env) (cfg : Config) : List String :=
  cutadaptPairedCmd env.cutadaptCmd cfg.threadsStr
    (sanitizeAdapter cfg.adapter5pR1) (sanitizeAdapter cfg.adapter5pR2)
    (sanitizeAdapter cfg.adapter3pR1) (sanitizeAdapter cfg.adapter3pR2)
    cfg.errorRateStr cfg.overlapStr cfg.minLenStr
    (trimmedR1Of env cfg) (trimmedR2Of env cfg) cfg.r1 cfg.r2

/-- The AssemblePairs command `main` builds. -/
def assembleCmdOf (env : Env) (cfg : Config) : List String :=
  assemblePairsCmd env.pyExe env.assemblePairsPath
    (assembleR1Of env cfg) (assembleR2Of env cfg)
    cfg.coord cfg.rc (assembleOutnameOf env cfg) (logPathOf env cfg)
    cfg.failed cfg.swapR1R2

/-- `assemble_pass = assemble_outname.parent / f"{assemble_outname.name}_assemble-pass.fastq"`. -/
def assemblePassOf (env : Env) (cfg : Config) : String :=
  joinPath (pathParent (assembleOutnameOf env cfg))
    (pathName (assembleOutnameOf env cfg) ++ "_assemble-pass.fastq")

/-- The single-stream trim command `main` builds in `merge-trim` mode. -/
def singleCmdOf (env : Env) (cfg : Config) : List String :=
  cutadaptSingleCmd env.cutadaptCmd cfg.threadsStr
    (sanitizeAdapter cfg.adapter5pR1) (sanitizeAdapter cfg.adapter5pR2)
    (sanitizeAdapter cfg.adapter3pR1) (sanitizeAdapter cfg.adapter3pR2)
    cfg.errorRateStr cfg.overlapStr cfg.minLenStr
    (mergeThenTrimOf env cfg) (assemblePassOf env cfg)

/-- `fasta_source`: the merge-then-trim output in `merge-trim` mode, else the
assembly pass output. -/
def fastaSourceOf (env : Env) (cfg : Config) : String :=
  if cfg.mode = "merge-trim" then mergeThenTrimOf env cfg else assemblePassOf env cfg

/-! ## The trace of `main` -/

/-- One observable effect of `main`. -/
inductive Event where
  | checkExists (path : String)
  | mkdirp (path : String)
  | printCmd (cmd : List String)
  | exec (cmd : List String) (cwd : Option String)
  | printMsg (msg : String)
  | convert (src dst : String)
  deriving DecidableEq, Repr

/-- How `main` finishes: a `return code`, or an uncaught exception. -/
inductive MainResult where
  | exitCode (code : Nat)
  | err (msg : String)
  deriving DecidableEq, Repr

/-- `run_command`: print the command line unconditionally; execute it only
when not in dry-run mode. -/
def runCommandEvents (cmd : List String) (dry : Bool) (cwd : Option String) : List Event :=
  Event.printCmd cmd :: (if dry then [] else [Event.exec cmd cwd])

/-- Events up to and including the `base_outdir.mkdir` that precedes run-id
validation. -/
def preEvents (cfg : Config) : List Event :=
  [Event.checkExists cfg.r1, Event.checkExists cfg.r2,
   Event.mkdirp (baseOutdirOf cfg)]

/-- Events through the run-directory and outname-parent `mkdir` calls. -/
def setupEvents (env : Env) (cfg : Config) : List Event :=
  preEvents cfg ++
  [Event.mkdirp (runDirOf env cfg),
   Event.mkdirp (pathParent (assembleOutnameOf env cfg))]

/-- Events of the optional paired pre-trim. -/
def trimEvents (env : Env) (cfg : Config) : List Event :=
  if cfg.mode = "trim-merge" then
    runCommandEvents (pairedCmdOf env cfg) cfg.dryRun none
  else []

/-- Events of the assembly step (working directory is the run directory). -/
def assembleEvents (env : Env) (cfg : Config) : List Event :=
  runCommandEvents (assembleCmdOf env cfg) cfg.dryRun (some (runDirOf env cfg))

/-- The dry-run stand-in print for the conversion step. -/
def dryConvertMsg (env : Env) (cfg : Config) : String :=
  ">> fastq_to_fasta " ++ fastaSourceOf env cfg ++ " -> " ++
    withSuffixFasta (fastaSourceOf env cfg)

/-- The conversion step when executing for real: emit the conversion effect,
then succeed or re-raise the conversion error. -/
def convertFinish (env : Env) (cfg : Config) (evs : List Event) : List Event × MainResult :=
  let evs := evs ++ [Event.convert (fastaSourceOf env cfg) (withSuffixFasta (fastaSourceOf env cfg))]
  match fastqToFasta (env.fileLines (fastaSourceOf env cfg)) with
  | .ok _ => (evs, MainResult.exitCode 0)
  | .error e => (evs, MainResult.err (fqErrMsg e))

/-- The `main` function: input-existence checks, directory setup, run-id
validation, the mode-keyed pipeline, the post-stage artifact checks, and the
final conversion, returning the effect trace and how the process finished. -/
def mainModel (env : Env) (cfg : Config) : List Event × MainResult :=
  if env.fs cfg.r1 = false then
    ([Event.checkExists cfg.r1], MainResult.exitCode 2)
  else if env.fs cfg.r2 = false then
    ([Event.checkExists cfg.r1, Event.checkExists cfg.r2], MainResult.exitCode 2)
  else if validateRunIdFails (runIdOf env cfg) = true then
    (preEvents cfg, MainResult.err runIdErrMsg)
  else if cfg.dryRun = true then
    (setupEvents env cfg ++ trimEvents env cfg ++ assembleEvents env cfg ++
      (if cfg.mode = "merge-trim" then
        runCommandEvents (singleCmdOf env cfg) cfg.dryRun none
       else []) ++
      [Event.printMsg (dryConvertMsg env cfg)],
     MainResult.exitCode 0)
  else
    let evs2 := setupEvents env cfg ++ trimEvents env cfg ++ assembleEvents env cfg ++
      [Event.checkExists (assemblePassOf env cfg)]
    if env.fs (assemblePassOf env cfg) = false then (evs2, MainResult.exitCode 3)
    else if cfg.mode = "merge-trim" then
      let evs3 := evs2 ++ runCommandEvents (singleCmdOf env cfg) cfg.dryRun none ++
        [Event.checkExists (mergeThenTrimOf env cfg)]
      if env.fs (mergeThenTrimOf env cfg) = false then (evs3, MainResult.exitCode 4)
      else convertFinish env cfg evs3
    else convertFinish env cfg evs2

/-- The external process executions in a trace, in order. -/
def execCmds (evs : List Event) : List (List String) :=
  evs.filterMap (fun e =>
    match e with
    | Event.exec c _ => some c
    | _ => none)

/-! ## Concrete environments and configurations (used to instantiate the
universally quantified statements below) -/

/-- A representative parsed-argument record. -/
def cfgBase : Config where
  mode := "merge-only"
  r1 := "/d/a_R1.fastq"
  r2 := "/d/a_R2.fastq"
  outdir := some "/o"
  prefixArg := some "S"
  assemblePrefixArg := none
  runId := some "RID"
  logArg := none
  threadsStr := "8"
  errorRateStr := "0.15"
  overlapStr := "10"
  minLenStr := "50"
  adapter5pR1 := "TGAGTTCCACGACACCGTCA"
  adapter5pR2 := "CTAATACGACTCCGAATTCC"
  adapter3pR1 := "GGAATTCGGAGTCGTATTAG"
  adapter3pR2 := "TGACGGTGTCGTGGAACTCA"
  coord := "illumina"
  rc := "tail"
  failed := false
  swapR1R2 := false
  dryRun := false

/-- `cfgBase` in `trim-merge` mode. -/
def cfgTrimMerge : Config := { cfgBase with mode := "trim-merge" }

/-- `cfgBase` in `merge-trim` mode. -/
def cfgMergeTrim : Config := { cfgBase with mode := "merge-trim" }

/-- `cfgBase` with the dry-run flag set. -/
def cfgDry : Config := { cfgBase with dryRun := true }

/-- `cfgBase` with a run identifier containing `:`. -/
def cfgBadRunId : Config := { cfgBase with runId := some "a:b" }

/-- An environment in which every path exists and conversion input is a
well-formed FASTQ record. -/
def envAll : Env where
  fs := fun _ => true
  now := "20260101_000000"
  pyExe := "python3"
  assemblePairsPath := "/opt/presto/AssemblePairs.py"
  cutadaptCmd := ["cutadapt"]
  fileLines := fun _ => ["@r 1\n", "ACGT\n", "+\n", "IIII\n"]

/-- An environment in which no path exists. -/
def envNone : Env := { envAll with fs := fun _ => false }

/-- An environment in which only the two input read files exist (the assembly
pass output is never produced). -/
def envNoPass : Env :=
  { envAll with fs := fun s => s == "/d/a_R1.fastq" || s == "/d/a_R2.fastq" }

/-- An environment in which every path except the merge-then-trim output of
`cfgMergeTrim` exists. -/
def envNoMT : Env :=
  { envAll with
    fs := fun s => !(s == "/o/S_mergeThenTrim_RID/S_mergeThenTrim_RID.fastq") }

/-! ## Helper lemmas: Python strip -/

theorem dropWhileIdem (p : Char → Bool) (l : List Char) :
    (l.dropWhile p).dropWhile p = l.dropWhile p := by
  induction l with
  | nil => simp
  | cons c t ih =>
    by_cases h : p c = true
    · simp [List.dropWhile_cons, h, ih]
    · simp [List.dropWhile_cons, h]

theorem headDropWhileFalse (p : Char → Bool) (l : List Char) :
    ∀ c, (l.dropWhile p).head? = some c → p c = false := by
  induction l with
  | nil => intro c h; simp at h
  | cons a t ih =>
    intro c h
    by_cases ha : p a = true
    · rw [List.dropWhile_cons, if_pos ha] at h
      exact ih c h
    · rw [List.dropWhile_cons, if_neg ha] at h
      simp only [List.head?_cons, Option.some.injEq] at h
      rw [← h]
      exact Bool.eq_false_iff.mpr ha

theorem dropWhileEqSelf (p : Char → Bool) (l : List Char)
    (h : ∀ c, l.head? = some c → p c = false) : l.dropWhile p = l := by
  cases l with
  | nil => simp
  | cons a t =>
    rw [List.dropWhile_cons, if_neg]
    rw [h a rfl]
    simp

theorem reversePyStripL (w : List Char) :
    (pyStripL w).reverse = (stripFront w).reverse.dropWhile isPySpace := by
  simp [pyStripL, stripBack]

theorem stripBackPrefix (m : List Char) : stripBack m <+: m := by
  have h : (m.reverse.dropWhile isPySpace).reverse <+: m.reverse.reverse :=
    List.reverse_prefix.mpr (List.dropWhile_suffix _)
  rw [List.reverse_reverse] at h
  exact h

theorem headPyStripL (w : List Char) :
    ∀ c, (pyStripL w).head? = some c → isPySpace c = false := by
  intro c h
  obtain ⟨t, ht⟩ := stripBackPrefix (stripFront w)
  have hw : (stripFront w).head? = some c := by
    rw [← ht]
    show (pyStripL w ++ t).head? = some c
    cases hp : pyStripL w with
    | nil => rw [hp] at h; exact absurd h (by simp)
    | cons a u =>
      rw [hp] at h
      simpa using h
  exact headDropWhileFalse isPySpace w c hw

theorem lastPyStripL (w : List Char) :
    ∀ c, (pyStripL w).reverse.head? = some c → isPySpace c = false := by
  intro c h
  rw [reversePyStripL] at h
  exact headDropWhileFalse isPySpace (stripFront w).reverse c h

theorem stripFrontFix (w : List Char) : stripFront (pyStripL w) = pyStripL w :=
  dropWhileEqSelf isPySpace (pyStripL w) (headPyStripL w)

theorem stripBackFix (w : List Char) : stripBack (pyStripL w) = pyStripL w := by
  unfold stripBack
  rw [dropWhileEqSelf isPySpace (pyStripL w).reverse (lastPyStripL w), List.reverse_reverse]

theorem pyStripLIdem (w : List Char) : pyStripL (pyStripL w) = pyStripL w := by
  show stripBack (stripFront (pyStripL w)) = pyStripL w
  rw [stripFrontFix, stripBackFix]

theorem pyStripLCaret (w : List Char) :
    pyStripL ('^' :: pyStripL w) = '^' :: pyStripL w := by
  have h1 : stripFront ('^' :: pyStripL w) = '^' :: pyStripL w := by
    unfold stripFront
    rw [List.dropWhile_cons, if_neg (by decide)]
  have hhd : ∀ c, ('^' :: pyStripL w).reverse.head? = some c → isPySpace c = false := by
    intro c hc
    rcases hu : (pyStripL w).reverse with _ | ⟨a, t⟩
    · rw [List.reverse_cons, hu] at hc
      simp at hc
      subst hc
      decide
    · rw [List.reverse_cons, hu] at hc
      simp only [List.cons_append, List.head?_cons, Option.some.injEq] at hc
      subst hc
      exact lastPyStripL w a (by rw [hu]; rfl)
  show stripBack (stripFront ('^' :: pyStripL w)) = '^' :: pyStripL w
  rw [h1]
  unfold stripBack
  rw [dropWhileEqSelf isPySpace ('^' :: pyStripL w).reverse hhd, List.reverse_reverse]

theorem pyStripLDollar (w : List Char) :
    pyStripL (pyStripL w ++ ['$']) = pyStripL w ++ ['$'] := by
  have h1 : stripFront (pyStripL w ++ ['$']) = pyStripL w ++ ['$'] := by
    apply dropWhileEqSelf
    intro c hc
    rcases hu : pyStripL w with _ | ⟨a, t⟩
    · rw [hu] at hc
      simp at hc
      subst hc
      decide
    · rw [hu] at hc
      simp only [List.cons_append, List.head?_cons, Option.some.injEq] at hc
      subst hc
      exact headPyStripL w a (by rw [hu]; rfl)
  show stripBack (stripFront (pyStripL w ++ ['$'])) = pyStripL w ++ ['$']
  rw [h1]
  unfold stripBack
  rw [List.reverse_append]
  have h2 : (['$'].reverse ++ (pyStripL w).reverse).dropWhile isPySpace
      = '$' :: (pyStripL w).reverse := by
    show ('$' :: (pyStripL w).reverse).dropWhile isPySpace = _
    rw [List.dropWhile_cons, if_neg (by decide)]
  rw [h2, List.reverse_cons, List.reverse_reverse]

/-! ## Helper lemmas: list substring bridges -/

theorem isPrefixOfTrue {l₁ l₂ : List Char} :
    l₁.isPrefixOf l₂ = true ↔ l₁ <+: l₂ := by
  induction l₁ generalizing l₂ with
  | nil => simp [List.isPrefixOf]
  | cons a t ih =>
    cases l₂ with
    | nil => simp [List.isPrefixOf]
    | cons b u =>
      simp only [List.isPrefixOf, Bool.and_eq_true, beq_iff_eq, ih,
        List.cons_prefix_cons]

theorem dataMk (l : List Char) : (String.mk l).data = l := rfl

theorem ensureCaretCases (s : String) :
    ensurePrefixStr s "^" =
      (if ['^'].isPrefixOf (pyStripL s.data) then (⟨pyStripL s.data⟩ : String)
       else ⟨'^' :: pyStripL s.data⟩) := rfl

theorem ensureDollarCases (s : String) :
    ensureSuffixStr s "$" =
      (if ['$'].isSuffixOf (pyStripL s.data) then (⟨pyStripL s.data⟩ : String)
       else ⟨pyStripL s.data ++ ['$']⟩) := rfl

/-- C6: `sanitize_adapter` output never contains an anchor marker; formatting
an adapter for use (prepending `^` for 5-prime, appending `$` for 3-prime,
each only when absent) is idempotent and the formatted form always carries
its marker. -/
theorem c6_adapter_transforms :
    (∀ s : String, '^' ∉ (sanitizeAdapter s).data ∧ '$' ∉ (sanitizeAdapter s).data)
  ∧ (∀ s : String, ensurePrefixStr (ensurePrefixStr s "^") "^" = ensurePrefixStr s "^")
  ∧ (∀ s : String, ensureSuffixStr (ensureSuffixStr s "$") "$" = ensureSuffixStr s "$")
  ∧ (∀ s : String, ['^'].isPrefixOf (ensurePrefixStr s "^").data = true)
  ∧ (∀ s : String, ['$'].isSuffixOf (ensureSuffixStr s "$").data = true) := by
  refine ⟨?_, ?_, ?_, ?_, ?_⟩
  · intro s
    constructor
    · intro h
      simp only [sanitizeAdapter, dataMk, List.mem_filter] at h
      simp at h
    · intro h
      simp only [sanitizeAdapter, dataMk, List.mem_filter] at h
      simp at h
  · intro s
    rw [ensureCaretCases s]
    by_cases h : ['^'].isPrefixOf (pyStripL s.data) = true
    · rw [if_pos h, ensureCaretCases ⟨pyStripL s.data⟩]
      simp only [dataMk, pyStripLIdem]
      rw [if_pos h]
    · rw [if_neg h, ensureCaretCases ⟨'^' :: pyStripL s.data⟩]
      simp only [dataMk, pyStripLCaret]
      rw [if_pos (by simp [List.isPrefixOf])]
  · intro s
    rw [ensureDollarCases s]
    by_cases h : ['$'].isSuffixOf (pyStripL s.data) = true
    · rw [if_pos h, ensureDollarCases ⟨pyStripL s.data⟩]
      simp only [dataMk, pyStripLIdem]
      rw [if_pos h]
    · rw [if_neg h, ensureDollarCases ⟨pyStripL s.data ++ ['$']⟩]
      simp only [dataMk, pyStripLDollar]
      rw [if_pos (List.isSuffixOf_iff_suffix.mpr (List.suffix_append _ _))]
  · intro s
    rw [ensureCaretCases s]
    by_cases h : ['^'].isPrefixOf (pyStripL s.data) = true
    · rw [if_pos h, dataMk]
      exact h
    · rw [if_neg h, dataMk]
      simp [List.isPrefixOf]
  · intro s
    rw [ensureDollarCases s]
    by_cases h : ['$'].isSuffixOf (pyStripL s.data) = true
    · rw [if_pos h, dataMk]
      exact h
    · rw [if_neg h, dataMk]
      exact List.isSuffixOf_iff_suffix.mpr (List.suffix_append _ _)

/-- C9: the run directory name is the pure function
`{prefix_base}_{mode_label}_{run_id}` of the sample prefix, mode and run
identifier, where `mode_label` is the fixed display mapping (and not the raw
mode string), and `main` derives its run directory from exactly this name. -/
theorem c9_run_directory_name :
    modeLabel "merge-only" = "withoutTrim"
  ∧ modeLabel "trim-merge" = "trimThenMerge"
  ∧ modeLabel "merge-trim" = "mergeThenTrim"
  ∧ modeLabel "merge-only" ≠ "merge-only"
  ∧ modeLabel "trim-merge" ≠ "trim-merge"
  ∧ modeLabel "merge-trim" ≠ "merge-trim"
  ∧ (∀ prefixBase mode runId : String,
      runName prefixBase mode runId =
        prefixBase ++ "_" ++ modeLabel mode ++ "_" ++ runId)
  ∧ (∀ (env : Env) (cfg : Config),
      runNameOf env cfg = runName (prefixBaseOf cfg) cfg.mode (runIdOf env cfg))
  ∧ (∀ (env : Env) (cfg : Config),
      runDirOf env cfg = joinPath (baseOutdirOf cfg) (runNameOf env cfg)) := by
  exact ⟨rfl, rfl, rfl, by decide, by decide, by decide,
    fun _ _ _ => rfl, fun _ _ => rfl, fun _ _ => rfl⟩

/-- C4: FASTQ-to-FASTA conversion reads fixed 4-line records, emitting for
each one exactly the `>`-header line (header stripped, `@` removed, truncated
at the first whitespace run) and the raw sequence line; the record
`@read1 extra / ACGT / + / IIII` yields exactly `>read1` then `ACGT`; a
stream that ends mid-record (missing quality line) is the truncated-record
error. -/
theorem c4_fastq_to_fasta :
    fastqToFasta ["@read1 extra\n", "ACGT\n", "+\n", "IIII\n"] =
      Except.ok [">read1\n", "ACGT\n"]
  ∧ (∀ (h s p q : String) (rest : List String) (t : String) (out : List String),
      h ≠ "" → q ≠ "" → headerToken h = some t →
      fastqToFasta rest = Except.ok out →
      fastqToFasta (h :: s :: p :: q :: rest) =
        Except.ok ((">" ++ t ++ "\n") :: (pyStrip s ++ "\n") :: out))
  ∧ (∀ (h s p : String), h ≠ "" →
      fastqToFasta [h] = Except.error FqErr.truncated
    ∧ fastqToFasta [h, s] = Except.error FqErr.truncated
    ∧ fastqToFasta [h, s, p] = Except.error FqErr.truncated) := by
  refine ⟨rfl, ?_, ?_⟩
  · intro h s p q rest t out hh hq hht hrest
    simp [fastqToFasta, hh, hq, hht, hrest]
  · intro h s p hh
    refine ⟨?_, ?_, ?_⟩ <;> simp [fastqToFasta, hh]

theorem c4_fastq_to_fasta_witness :
    fastqToFasta ["@x y\n", "AA\n", "+\n", "II\n"] = Except.ok [">x\n", "AA\n"]
  ∧ fastqToFasta ["@x\n", "AA\n", "+\n"] = Except.error FqErr.truncated :=
  ⟨c4_fastq_to_fasta.2.1 "@x y\n" "AA\n" "+\n" "II\n" [] "x" []
      (by decide) (by decide) rfl rfl,
   (c4_fastq_to_fasta.2.2 "@x\n" "AA\n" "+\n" (by decide)).2.2⟩

/-- C10: on a well-formed 4-line record whose header is a bare `@` (or `@`
followed only by whitespace), the conversion neither produces output nor the
truncated-record error: `header.split()[0]` raises IndexError on the empty
token list, so the conversion is not total over 4-line records. -/
theorem c10_header_crash :
    fastqToFasta ["@\n", "ACGT\n", "+\n", "IIII\n"] = Except.error FqErr.indexError
  ∧ fastqToFasta ["@   \n", "ACGT\n", "+\n", "IIII\n"] = Except.error FqErr.indexError
  ∧ fqOk (fastqToFasta ["@\n", "ACGT\n", "+\n", "IIII\n"]) = false
  ∧ fastqToFasta ["@\n", "ACGT\n", "+\n", "IIII\n"] ≠ Except.error FqErr.truncated := by
  have he : fastqToFasta ["@\n", "ACGT\n", "+\n", "IIII\n"]
      = Except.error FqErr.indexError := rfl
  refine ⟨he, rfl, rfl, ?_⟩
  rw [he]
  intro hcontra
  exact absurd (Except.error.inj hcontra) (by decide)

/-! ## Helper lemmas: suffix stripping -/

theorem isSuffixOfAppendSelf (l s : List Char) : s.isSuffixOf (l ++ s) = true :=
  List.isSuffixOf_iff_suffix.mpr (List.suffix_append l s)

theorem notSuffixHelper (sOther s : List Char) (h1 : sOther.isSuffixOf s = false)
    (h2 : s.isSuffixOf sOther = false) (l : List Char) :
    sOther.isSuffixOf (l ++ s) = false := by
  cases hx : sOther.isSuffixOf (l ++ s) with
  | false => rfl
  | true =>
    have hp : sOther <:+ l ++ s := List.isSuffixOf_iff_suffix.mp hx
    have hq : s <:+ l ++ s := List.suffix_append l s
    rcases List.suffix_or_suffix_of_suffix hp hq with h | h
    · have := List.isSuffixOf_iff_suffix.mpr h
      rw [h1] at this
      exact absurd this (by decide)
    · have := List.isSuffixOf_iff_suffix.mpr h
      rw [h2] at this
      exact absurd this (by decide)

theorem takeAppendLen (l s : List Char) :
    (l ++ s).take ((l ++ s).length - s.length) = l := by
  rw [List.length_append, Nat.add_sub_cancel]
  exact List.take_left l s

theorem stripBySuffixesCons (s : List Char) (rest : List (List Char))
    (nm : List Char) (h : s.isSuffixOf nm = false) :
    stripBySuffixes (s :: rest) nm = stripBySuffixes rest nm := by
  simp [stripBySuffixes, h]

theorem stripBySuffixesHit (s : List Char) (rest : List (List Char))
    (nm : List Char) (h : s.isSuffixOf nm = true) :
    stripBySuffixes (s :: rest) nm = nm.take (nm.length - s.length) := by
  simp [stripBySuffixes, h]

theorem markerStepCons (m : List Char) (rest : List (List Char))
    (nm : List Char) (h : m.isSuffixOf nm = false) :
    markerStep (m :: rest) nm = markerStep rest nm := by
  simp [markerStep, h]

theorem markerStepHit (m : List Char) (rest : List (List Char))
    (nm : List Char) (h : m.isSuffixOf nm = true) :
    markerStep (m :: rest) nm = some (nm.take (nm.length - m.length)) := by
  simp [markerStep, h]

theorem markerStepNone (ms : List (List Char)) (nm : List Char)
    (h : ∀ m ∈ ms, m.isSuffixOf nm = false) : markerStep ms nm = none := by
  induction ms with
  | nil => rfl
  | cons m rest ih =>
    rw [markerStepCons m rest nm (h m (List.mem_cons_self m rest))]
    exact ih (fun x hx => h x (List.mem_cons_of_mem m hx))

theorem fastqSuffixesExpand :
    fastqSuffixes =
      ".fastq.gz".data :: ".fq.gz".data :: ".fastq".data :: ".fq".data :: [] := rfl

theorem r1MarkersExpand :
    r1Markers = "_R1_001".data :: "_R1".data :: "-R1".data :: ".R1".data :: [] := rfl

theorem stripSuffixesAppend (l s : List Char) (hs : s ∈ fastqSuffixes) :
    stripBySuffixes fastqSuffixes (l ++ s) = l := by
  rw [fastqSuffixesExpand]
  rw [fastqSuffixesExpand] at hs
  simp only [List.mem_cons, List.not_mem_nil, or_false] at hs
  rcases hs with rfl | rfl | rfl | rfl
  · rw [stripBySuffixesHit _ _ _ (isSuffixOfAppendSelf l _), takeAppendLen]
  · rw [stripBySuffixesCons _ _ _ (notSuffixHelper _ _ (by decide) (by decide) l),
      stripBySuffixesHit _ _ _ (isSuffixOfAppendSelf l _), takeAppendLen]
  · rw [stripBySuffixesCons _ _ _ (notSuffixHelper _ _ (by decide) (by decide) l),
      stripBySuffixesCons _ _ _ (notSuffixHelper _ _ (by decide) (by decide) l),
      stripBySuffixesHit _ _ _ (isSuffixOfAppendSelf l _), takeAppendLen]
  · rw [stripBySuffixesCons _ _ _ (notSuffixHelper _ _ (by decide) (by decide) l),
      stripBySuffixesCons _ _ _ (notSuffixHelper _ _ (by decide) (by decide) l),
      stripBySuffixesCons _ _ _ (notSuffixHelper _ _ (by decide) (by decide) l),
      stripBySuffixesHit _ _ _ (isSuffixOfAppendSelf l _), takeAppendLen]

theorem markerAppend (base m : List Char) (hm : m ∈ r1Markers) :
    markerStep r1Markers (base ++ m) = some base := by
  rw [r1MarkersExpand]
  rw [r1MarkersExpand] at hm
  simp only [List.mem_cons, List.not_mem_nil, or_false] at hm
  rcases hm with rfl | rfl | rfl | rfl
  · rw [markerStepHit _ _ _ (isSuffixOfAppendSelf base _), takeAppendLen]
  · rw [markerStepCons _ _ _ (notSuffixHelper _ _ (by decide) (by decide) base),
      markerStepHit _ _ _ (isSuffixOfAppendSelf base _), takeAppendLen]
  · rw [markerStepCons _ _ _ (notSuffixHelper _ _ (by decide) (by decide) base),
      markerStepCons _ _ _ (notSuffixHelper _ _ (by decide) (by decide) base),
      markerStepHit _ _ _ (isSuffixOfAppendSelf base _), takeAppendLen]
  · rw [markerStepCons _ _ _ (notSuffixHelper _ _ (by decide) (by decide) base),
      markerStepCons _ _ _ (notSuffixHelper _ _ (by decide) (by decide) base),
      markerStepCons _ _ _ (notSuffixHelper _ _ (by decide) (by decide) base),
      markerStepHit _ _ _ (isSuffixOfAppendSelf base _), takeAppendLen]

/-! ## Helper lemmas: first-occurrence truncation -/

theorem takeBeforeFirstPrefixOf (sep l : List Char) : takeBeforeFirst sep l <+: l := by
  induction l with
  | nil => simp [takeBeforeFirst]
  | cons c rest ih =>
    cases hp : sep.isPrefixOf (c :: rest) with
    | true =>
      simp only [takeBeforeFirst, hp, if_true]
      exact List.nil_prefix
    | false =>
      simp only [takeBeforeFirst, hp]
      simp only [Bool.false_eq_true, if_false]
      exact List.cons_prefix_cons.mpr ⟨rfl, ih⟩

theorem takeBeforeFirstSpec (sep : List Char) (hne : sep ≠ []) (l : List Char)
    (h : containsSub sep l = true) :
    (takeBeforeFirst sep l) ++ sep <+: l
    ∧ containsSub sep (takeBeforeFirst sep l) = false := by
  induction l with
  | nil =>
    rw [show containsSub sep [] = sep.isPrefixOf [] from rfl] at h
    exact absurd (List.prefix_nil.mp (isPrefixOfTrue.mp h)) hne
  | cons c rest ih =>
    cases hp : sep.isPrefixOf (c :: rest) with
    | true =>
      constructor
      · simp only [takeBeforeFirst, hp, if_true, List.nil_append]
        exact isPrefixOfTrue.mp hp
      · simp only [takeBeforeFirst, hp, if_true]
        cases sep with
        | nil => exact absurd rfl hne
        | cons a t => rfl
    | false =>
      have hrest : containsSub sep rest = true := by
        rw [show containsSub sep (c :: rest) =
          (sep.isPrefixOf (c :: rest) || containsSub sep rest) from rfl, hp] at h
        simpa using h
      obtain ⟨h1, h2⟩ := ih hrest
      have htb : takeBeforeFirst sep (c :: rest) = c :: takeBeforeFirst sep rest := by
        simp only [takeBeforeFirst, hp]
        simp
      constructor
      · rw [htb, List.cons_append]
        exact List.cons_prefix_cons.mpr ⟨rfl, h1⟩
      · rw [htb]
        have hnp : sep.isPrefixOf (c :: takeBeforeFirst sep rest) = false := by
          cases hx : sep.isPrefixOf (c :: takeBeforeFirst sep rest) with
          | false => rfl
          | true =>
            have htr : sep <+: c :: rest :=
              (isPrefixOfTrue.mp hx).trans
                (List.cons_prefix_cons.mpr ⟨rfl, takeBeforeFirstPrefixOf sep rest⟩)
            have h3 := isPrefixOfTrue.mpr htr
            rw [hp] at h3
            exact absurd h3 (by decide)
        rw [show containsSub sep (c :: takeBeforeFirst sep rest) =
          (sep.isPrefixOf (c :: takeBeforeFirst sep rest) ||
            containsSub sep (takeBeforeFirst sep rest)) from rfl, hnp, h2]
        rfl

/-- C5: when the R1 filename is `base ++ marker ++ ending` for a recognized
FASTQ ending and a recognized trailing R1 marker, prefix inference returns
exactly `base` (ending and marker removed, nothing else); when no trailing
marker matches after ending removal but `_R1_` occurs embedded, the result is
the ending-stripped name truncated at the first `_R1_` occurrence; otherwise
the ending-stripped name is returned verbatim. -/
theorem c5_prefix_inference :
    (∀ base m s : List Char, m ∈ r1Markers → s ∈ fastqSuffixes →
      inferPrefixCore (base ++ m ++ s) = base)
  ∧ (∀ nm : List Char,
      (∀ m ∈ r1Markers, m.isSuffixOf (stripBySuffixes fastqSuffixes nm) = false) →
      containsSub "_R1_".data (stripBySuffixes fastqSuffixes nm) = true →
        inferPrefixCore nm ++ "_R1_".data <+: stripBySuffixes fastqSuffixes nm
      ∧ containsSub "_R1_".data (inferPrefixCore nm) = false)
  ∧ (∀ nm : List Char,
      (∀ m ∈ r1Markers, m.isSuffixOf (stripBySuffixes fastqSuffixes nm) = false) →
      containsSub "_R1_".data (stripBySuffixes fastqSuffixes nm) = false →
        inferPrefixCore nm = stripBySuffixes fastqSuffixes nm)
  ∧ (∀ nm : String, inferPrefixOfName nm = ⟨inferPrefixCore nm.data⟩) := by
  refine ⟨?_, ?_, ?_, fun _ => rfl⟩
  · intro base m s hm hs
    have h1 : stripBySuffixes fastqSuffixes (base ++ m ++ s) = base ++ m :=
      stripSuffixesAppend (base ++ m) s hs
    have h2 : markerStep r1Markers (base ++ m) = some base := markerAppend base m hm
    simp only [inferPrefixCore, h1, h2]
  · intro nm hnom hcont
    have hms : markerStep r1Markers (stripBySuffixes fastqSuffixes nm) = none :=
      markerStepNone _ _ hnom
    have he : inferPrefixCore nm =
        takeBeforeFirst "_R1_".data (stripBySuffixes fastqSuffixes nm) := by
      simp [inferPrefixCore, hms, hcont]
    rw [he]
    exact takeBeforeFirstSpec _ (by decide) _ hcont
  · intro nm hnom hcont
    have hms : markerStep r1Markers (stripBySuffixes fastqSuffixes nm) = none :=
      markerStepNone _ _ hnom
    simp [inferPrefixCore, hms, hcont]

theorem c5_prefix_inference_witness :
    inferPrefixCore ("sample".data ++ "_R1".data ++ ".fastq.gz".data) = "sample".data
  ∧ (inferPrefixCore "samp_R1_x".data ++ "_R1_".data <+:
        stripBySuffixes fastqSuffixes "samp_R1_x".data
     ∧ containsSub "_R1_".data (inferPrefixCore "samp_R1_x".data) = false)
  ∧ inferPrefixCore "plain".data = stripBySuffixes fastqSuffixes "plain".data :=
  ⟨c5_prefix_inference.1 "sample".data "_R1".data ".fastq.gz".data
      (by decide) (by decide),
   c5_prefix_inference.2.1 "samp_R1_x".data (by decide) (by decide),
   c5_prefix_inference.2.2.1 "plain".data (by decide) (by decide)⟩

/-! ## Helper lemmas: traces of main -/

theorem convertFinishTrace (env : Env) (cfg : Config) (evs : List Event) :
    (convertFinish env cfg evs).1 =
      evs ++ [Event.convert (fastaSourceOf env cfg)
        (withSuffixFasta (fastaSourceOf env cfg))] := by
  unfold convertFinish
  cases fastqToFasta (env.fileLines (fastaSourceOf env cfg)) <;> rfl

theorem execCmdsAppend (a b : List Event) :
    execCmds (a ++ b) = execCmds a ++ execCmds b := by
  simp [execCmds]

theorem execCmdsRunDry (c : List String) (w : Option String) :
    execCmds (runCommandEvents c true w) = [] := rfl

theorem execCmdsRunWet (c : List String) (w : Option String) :
    execCmds (runCommandEvents c false w) = [c] := rfl

theorem execCmdsSetup (env : Env) (cfg : Config) :
    execCmds (setupEvents env cfg) = [] := rfl

/-- C1: the exit code is 2 when an input read file is missing (with no
external call executed), 3 when (not in dry-run) the assembly pass output is
absent after assembly, 4 when (mode `merge-trim`, not in dry-run) the
merge-then-trim output is absent after the single-stream trim, and 0 on a
successful run. -/
theorem c1_exit_codes :
    (∀ (env : Env) (cfg : Config),
      env.fs cfg.r1 = false ∨ env.fs cfg.r2 = false →
        (mainModel env cfg).2 = MainResult.exitCode 2
      ∧ execCmds (mainModel env cfg).1 = [])
  ∧ (∀ (env : Env) (cfg : Config),
      env.fs cfg.r1 = true → env.fs cfg.r2 = true →
      validateRunIdFails (runIdOf env cfg) = false →
      cfg.dryRun = false →
      env.fs (assemblePassOf env cfg) = false →
        (mainModel env cfg).2 = MainResult.exitCode 3)
  ∧ (∀ (env : Env) (cfg : Config),
      env.fs cfg.r1 = true → env.fs cfg.r2 = true →
      validateRunIdFails (runIdOf env cfg) = false →
      cfg.dryRun = false → cfg.mode = "merge-trim" →
      env.fs (assemblePassOf env cfg) = true →
      env.fs (mergeThenTrimOf env cfg) = false →
        (mainModel env cfg).2 = MainResult.exitCode 4)
  ∧ (∀ (env : Env) (cfg : Config),
      env.fs cfg.r1 = true → env.fs cfg.r2 = true →
      validateRunIdFails (runIdOf env cfg) = false →
      cfg.dryRun = false →
      env.fs (assemblePassOf env cfg) = true →
      (cfg.mode = "merge-trim" → env.fs (mergeThenTrimOf env cfg) = true) →
      fqOk (fastqToFasta (env.fileLines (fastaSourceOf env cfg))) = true →
        (mainModel env cfg).2 = MainResult.exitCode 0) := by
  refine ⟨?_, ?_, ?_, ?_⟩
  · intro env cfg h
    cases h1 : env.fs cfg.r1 with
    | false => simp [mainModel, h1, execCmds]
    | true =>
      have h2 : env.fs cfg.r2 = false := by
        rcases h with h | h
        · rw [h1] at h; exact absurd h (by decide)
        · exact h
      simp [mainModel, h1, h2, execCmds]
  · intro env cfg h1 h2 hval hdry hpass
    simp [mainModel, h1, h2, hval, hdry, hpass]
  · intro env cfg h1 h2 hval hdry hm hpass hmt
    simp [mainModel, h1, h2, hval, hdry, hm, hpass, hmt]
  · intro env cfg h1 h2 hval hdry hpass hmti hfq
    cases hfqv : fastqToFasta (env.fileLines (fastaSourceOf env cfg)) with
    | error e => rw [hfqv] at hfq; exact absurd hfq (by simp [fqOk])
    | ok out =>
      by_cases hm : cfg.mode = "merge-trim"
      · have hmt := hmti hm
        simp [mainModel, h1, h2, hval, hdry, hm, hpass, hmt, convertFinish, hfqv]
      · simp [mainModel, h1, h2, hval, hdry, hm, hpass, convertFinish, hfqv]

theorem c1_exit_codes_witness :
    ((mainModel envNone cfgBase).2 = MainResult.exitCode 2
      ∧ execCmds (mainModel envNone cfgBase).1 = [])
  ∧ (mainModel envNoPass cfgBase).2 = MainResult.exitCode 3
  ∧ (mainModel envNoMT cfgMergeTrim).2 = MainResult.exitCode 4
  ∧ (mainModel envAll cfgBase).2 = MainResult.exitCode 0 :=
  ⟨c1_exit_codes.1 envNone cfgBase (Or.inl (by decide)),
   c1_exit_codes.2.1 envNoPass cfgBase (by decide) (by decide) (by decide)
     (by decide) (by decide),
   c1_exit_codes.2.2.1 envNoMT cfgMergeTrim (by decide) (by decide) (by decide)
     (by decide) (by decide) (by decide) (by decide),
   c1_exit_codes.2.2.2 envAll cfgBase (by decide) (by decide) (by decide)
     (by decide) (by decide) (fun h => by decide) (by decide)⟩

/-- C2 as stated is false: with a run identifier containing `:` the program
does abort before any external call, but `base_outdir.mkdir` at line 361 runs
before `validate_run_id` at line 365, so the base output directory is created
before the run-identifier validation fails. -/
theorem c2_counterexample :
    Event.mkdirp (baseOutdirOf cfgBadRunId) ∈ (mainModel envAll cfgBadRunId).1
  ∧ (mainModel envAll cfgBadRunId).2 = MainResult.err runIdErrMsg
  ∧ validateRunIdFails (runIdOf envAll cfgBadRunId) = true := by
  refine ⟨?_, rfl, rfl⟩
  have h : (mainModel envAll cfgBadRunId).1 =
      [Event.checkExists cfgBadRunId.r1, Event.checkExists cfgBadRunId.r2,
       Event.mkdirp (baseOutdirOf cfgBadRunId)] := rfl
  rw [h]
  simp

/-- C2 (amended): for every run identifier containing an invalid character,
the program aborts with the validation ValueError before any external tool
invocation and before the run directory is created; the only preceding
filesystem effects are the two input existence checks and the creation of the
base output directory, which the code performs before validating the run
identifier. -/
theorem c2_amended_abort :
    ∀ (env : Env) (cfg : Config),
      env.fs cfg.r1 = true → env.fs cfg.r2 = true →
      validateRunIdFails (runIdOf env cfg) = true →
        mainModel env cfg =
          ([Event.checkExists cfg.r1, Event.checkExists cfg.r2,
            Event.mkdirp (baseOutdirOf cfg)], MainResult.err runIdErrMsg)
      ∧ execCmds (mainModel env cfg).1 = [] := by
  intro env cfg h1 h2 hv
  have hm : mainModel env cfg =
      ([Event.checkExists cfg.r1, Event.checkExists cfg.r2,
        Event.mkdirp (baseOutdirOf cfg)], MainResult.err runIdErrMsg) := by
    simp [mainModel, h1, h2, hv, preEvents]
  refine ⟨hm, ?_⟩
  rw [hm]
  rfl

theorem c2_amended_abort_witness :
    mainModel envAll cfgBadRunId =
      ([Event.checkExists cfgBadRunId.r1, Event.checkExists cfgBadRunId.r2,
        Event.mkdirp (baseOutdirOf cfgBadRunId)], MainResult.err runIdErrMsg)
  ∧ execCmds (mainModel envAll cfgBadRunId).1 = [] :=
  c2_amended_abort envAll cfgBadRunId (by decide) (by decide) (by decide)

/-- C3: for a valid executing configuration, the external invocations are
determined by the mode: `merge-only` performs exactly one (assembly on the raw
R1/R2); `trim-merge` exactly two (paired cutadapt trim, then assembly on the
trimmed files); `merge-trim` exactly two (assembly on the raw R1/R2, then the
single-stream cutadapt trim on the assembly pass output). -/
theorem c3_mode_invocations :
    (∀ (env : Env) (cfg : Config),
      env.fs cfg.r1 = true → env.fs cfg.r2 = true →
      validateRunIdFails (runIdOf env cfg) = false →
      cfg.dryRun = false → cfg.mode = "merge-only" →
        execCmds (mainModel env cfg).1 =
          [assemblePairsCmd env.pyExe env.assemblePairsPath cfg.r1 cfg.r2
            cfg.coord cfg.rc (assembleOutnameOf env cfg) (logPathOf env cfg)
            cfg.failed cfg.swapR1R2])
  ∧ (∀ (env : Env) (cfg : Config),
      env.fs cfg.r1 = true → env.fs cfg.r2 = true →
      validateRunIdFails (runIdOf env cfg) = false →
      cfg.dryRun = false → cfg.mode = "trim-merge" →
        execCmds (mainModel env cfg).1 =
          [cutadaptPairedCmd env.cutadaptCmd cfg.threadsStr
            (sanitizeAdapter cfg.adapter5pR1) (sanitizeAdapter cfg.adapter5pR2)
            (sanitizeAdapter cfg.adapter3pR1) (sanitizeAdapter cfg.adapter3pR2)
            cfg.errorRateStr cfg.overlapStr cfg.minLenStr
            (trimmedR1Of env cfg) (trimmedR2Of env cfg) cfg.r1 cfg.r2,
           assemblePairsCmd env.pyExe env.assemblePairsPath
            (trimmedR1Of env cfg) (trimmedR2Of env cfg)
            cfg.coord cfg.rc (assembleOutnameOf env cfg) (logPathOf env cfg)
            cfg.failed cfg.swapR1R2])
  ∧ (∀ (env : Env) (cfg : Config),
      env.fs cfg.r1 = true → env.fs cfg.r2 = true →
      validateRunIdFails (runIdOf env cfg) = false →
      cfg.dryRun = false → cfg.mode = "merge-trim" →
      env.fs (assemblePassOf env cfg) = true →
        execCmds (mainModel env cfg).1 =
          [assemblePairsCmd env.pyExe env.assemblePairsPath cfg.r1 cfg.r2
            cfg.coord cfg.rc (assembleOutnameOf env cfg) (logPathOf env cfg)
            cfg.failed cfg.swapR1R2,
           cutadaptSingleCmd env.cutadaptCmd cfg.threadsStr
            (sanitizeAdapter cfg.adapter5pR1) (sanitizeAdapter cfg.adapter5pR2)
            (sanitizeAdapter cfg.adapter3pR1) (sanitizeAdapter cfg.adapter3pR2)
            cfg.errorRateStr cfg.overlapStr cfg.minLenStr
            (mergeThenTrimOf env cfg) (assemblePassOf env cfg)]) := by
  refine ⟨?_, ?_, ?_⟩
  · intro env cfg h1 h2 hval hdry hm
    cases hpass : env.fs (assemblePassOf env cfg) with
    | false =>
      simp [mainModel, h1, h2, hval, hdry, hm, hpass, setupEvents, preEvents,
        trimEvents, assembleEvents, runCommandEvents, execCmds,
        assembleCmdOf, assembleR1Of, assembleR2Of]
    | true =>
      simp [mainModel, h1, h2, hval, hdry, hm, hpass, setupEvents, preEvents,
        trimEvents, assembleEvents, runCommandEvents, execCmds,
        convertFinishTrace, assembleCmdOf, assembleR1Of, assembleR2Of]
  · intro env cfg h1 h2 hval hdry hm
    cases hpass : env.fs (assemblePassOf env cfg) with
    | false =>
      simp [mainModel, h1, h2, hval, hdry, hm, hpass, setupEvents, preEvents,
        trimEvents, assembleEvents, runCommandEvents, execCmds,
        assembleCmdOf, assembleR1Of, assembleR2Of, pairedCmdOf]
    | true =>
      simp [mainModel, h1, h2, hval, hdry, hm, hpass, setupEvents, preEvents,
        trimEvents, assembleEvents, runCommandEvents, execCmds,
        convertFinishTrace, assembleCmdOf, assembleR1Of, assembleR2Of,
        pairedCmdOf]
  · intro env cfg h1 h2 hval hdry hm hpass
    cases hmt : env.fs (mergeThenTrimOf env cfg) with
    | false =>
      simp [mainModel, h1, h2, hval, hdry, hm, hpass, hmt, setupEvents,
        preEvents, trimEvents, assembleEvents, runCommandEvents, execCmds,
        assembleCmdOf, assembleR1Of, assembleR2Of, singleCmdOf]
    | true =>
      simp [mainModel, h1, h2, hval, hdry, hm, hpass, hmt, setupEvents,
        preEvents, trimEvents, assembleEvents, runCommandEvents, execCmds,
        convertFinishTrace, assembleCmdOf, assembleR1Of, assembleR2Of,
        singleCmdOf]

theorem c3_mode_invocations_witness :
    execCmds (mainModel envAll cfgBase).1 =
      [assemblePairsCmd envAll.pyExe envAll.assemblePairsPath cfgBase.r1
        cfgBase.r2 cfgBase.coord cfgBase.rc (assembleOutnameOf envAll cfgBase)
        (logPathOf envAll cfgBase) cfgBase.failed cfgBase.swapR1R2]
  ∧ execCmds (mainModel envAll cfgTrimMerge).1 =
      [cutadaptPairedCmd envAll.cutadaptCmd cfgTrimMerge.threadsStr
        (sanitizeAdapter cfgTrimMerge.adapter5pR1)
        (sanitizeAdapter cfgTrimMerge.adapter5pR2)
        (sanitizeAdapter cfgTrimMerge.adapter3pR1)
        (sanitizeAdapter cfgTrimMerge.adapter3pR2)
        cfgTrimMerge.errorRateStr cfgTrimMerge.overlapStr cfgTrimMerge.minLenStr
        (trimmedR1Of envAll cfgTrimMerge) (trimmedR2Of envAll cfgTrimMerge)
        cfgTrimMerge.r1 cfgTrimMerge.r2,
       assemblePairsCmd envAll.pyExe envAll.assemblePairsPath
        (trimmedR1Of envAll cfgTrimMerge) (trimmedR2Of envAll cfgTrimMerge)
        cfgTrimMerge.coord cfgTrimMerge.rc (assembleOutnameOf envAll cfgTrimMerge)
        (logPathOf envAll cfgTrimMerge) cfgTrimMerge.failed cfgTrimMerge.swapR1R2]
  ∧ execCmds (mainModel envAll cfgMergeTrim).1 =
      [assemblePairsCmd envAll.pyExe envAll.assemblePairsPath cfgMergeTrim.r1
        cfgMergeTrim.r2 cfgMergeTrim.coord cfgMergeTrim.rc
        (assembleOutnameOf envAll cfgMergeTrim) (logPathOf envAll cfgMergeTrim)
        cfgMergeTrim.failed cfgMergeTrim.swapR1R2,
       cutadaptSingleCmd envAll.cutadaptCmd cfgMergeTrim.threadsStr
        (sanitizeAdapter cfgMergeTrim.adapter5pR1)
        (sanitizeAdapter cfgMergeTrim.adapter5pR2)
        (sanitizeAdapter cfgMergeTrim.adapter3pR1)
        (sanitizeAdapter cfgMergeTrim.adapter3pR2)
        cfgMergeTrim.errorRateStr cfgMergeTrim.overlapStr cfgMergeTrim.minLenStr
        (mergeThenTrimOf envAll cfgMergeTrim) (assemblePassOf envAll cfgMergeTrim)] :=
  ⟨c3_mode_invocations.1 envAll cfgBase (by decide) (by decide) (by decide)
      (by decide) rfl,
   c3_mode_invocations.2.1 envAll cfgTrimMerge (by decide) (by decide)
      (by decide) (by decide) rfl,
   c3_mode_invocations.2.2 envAll cfgMergeTrim (by decide) (by decide)
      (by decide) (by decide) rfl (by decide)⟩

/-- C7: with the dry-run flag set and a valid configuration, no external
process is executed (commands are only printed), the only existence checks
are the two input-file checks (the post-assembly and post-trim checks are
skipped), the FASTQ-to-FASTA conversion is not performed, and the exit code
is 0. -/
theorem c7_dry_run :
    ∀ (env : Env) (cfg : Config), cfg.dryRun = true →
      env.fs cfg.r1 = true → env.fs cfg.r2 = true →
      validateRunIdFails (runIdOf env cfg) = false →
        (mainModel env cfg).2 = MainResult.exitCode 0
      ∧ execCmds (mainModel env cfg).1 = []
      ∧ (∀ p, Event.checkExists p ∈ (mainModel env cfg).1 →
          p = cfg.r1 ∨ p = cfg.r2)
      ∧ (∀ src dst, Event.convert src dst ∉ (mainModel env cfg).1)
      ∧ (∀ c w, Event.exec c w ∉ (mainModel env cfg).1) := by
  intro env cfg hdry h1 h2 hval
  by_cases hm1 : cfg.mode = "trim-merge"
  · have hm2 : ¬ cfg.mode = "merge-trim" := by rw [hm1]; simp
    simp [mainModel, h1, h2, hval, hdry, hm1, hm2, setupEvents, preEvents,
      trimEvents, assembleEvents, runCommandEvents, execCmds]
  · by_cases hm2 : cfg.mode = "merge-trim"
    · simp [mainModel, h1, h2, hval, hdry, hm1, hm2, setupEvents, preEvents,
        trimEvents, assembleEvents, runCommandEvents, execCmds]
    · simp [mainModel, h1, h2, hval, hdry, hm1, hm2, setupEvents, preEvents,
        trimEvents, assembleEvents, runCommandEvents, execCmds]

theorem c7_dry_run_witness :
    (mainModel envAll cfgDry).2 = MainResult.exitCode 0
  ∧ execCmds (mainModel envAll cfgDry).1 = []
  ∧ (∀ p, Event.checkExists p ∈ (mainModel envAll cfgDry).1 →
      p = cfgDry.r1 ∨ p = cfgDry.r2)
  ∧ (∀ src dst, Event.convert src dst ∉ (mainModel envAll cfgDry).1)
  ∧ (∀ c w, Event.exec c w ∉ (mainModel envAll cfgDry).1) :=
  c7_dry_run envAll cfgDry rfl (by decide) (by decide) (by decide)

/-- C8: in the AssemblePairs argument list the first read (`-1`) is R2 and the
second (`-2`) is R1 by default, and the swap flag inverts this order; `main`
always executes the assembly command with its working directory set to the
run directory. -/
theorem c8_assembly_order :
    (∀ (py ap r1 r2 coord rc outname log : String) (failed swap : Bool),
        (assemblePairsCmd py ap r1 r2 coord rc outname log failed swap).get? 3
          = some "-1"
      ∧ (assemblePairsCmd py ap r1 r2 coord rc outname log failed swap).get? 4
          = some (if swap then r1 else r2)
      ∧ (assemblePairsCmd py ap r1 r2 coord rc outname log failed swap).get? 5
          = some "-2"
      ∧ (assemblePairsCmd py ap r1 r2 coord rc outname log failed swap).get? 6
          = some (if swap then r2 else r1))
  ∧ (∀ (env : Env) (cfg : Config),
      env.fs cfg.r1 = true → env.fs cfg.r2 = true →
      validateRunIdFails (runIdOf env cfg) = false → cfg.dryRun = false →
        Event.exec (assembleCmdOf env cfg) (some (runDirOf env cfg))
          ∈ (mainModel env cfg).1) := by
  constructor
  · intro py ap r1 r2 coord rc outname log failed swap
    exact ⟨rfl, rfl, rfl, rfl⟩
  · intro env cfg h1 h2 hval hdry
    cases hpass : env.fs (assemblePassOf env cfg) with
    | false =>
      simp [mainModel, h1, h2, hval, hdry, hpass, setupEvents, preEvents,
        assembleEvents, runCommandEvents]
    | true =>
      by_cases hmt : cfg.mode = "merge-trim"
      · cases hmtf : env.fs (mergeThenTrimOf env cfg) with
        | false =>
          simp [mainModel, h1, h2, hval, hdry, hpass, hmt, hmtf, setupEvents,
            preEvents, assembleEvents, runCommandEvents]
        | true =>
          simp [mainModel, h1, h2, hval, hdry, hpass, hmt, hmtf, setupEvents,
            preEvents, assembleEvents, runCommandEvents, convertFinishTrace]
      · simp [mainModel, h1, h2, hval, hdry, hpass, hmt, setupEvents,
          preEvents, assembleEvents, runCommandEvents, convertFinishTrace]

theorem c8_assembly_order_witness :
    (assemblePairsCmd "python3" "/opt/presto/AssemblePairs.py" "a_R1.fastq"
        "a_R2.fastq" "illumina" "tail" "out" "log" false false).get? 4
      = some "a_R2.fastq"
  ∧ (assemblePairsCmd "python3" "/opt/presto/AssemblePairs.py" "a_R1.fastq"
        "a_R2.fastq" "illumina" "tail" "out" "log" false true).get? 4
      = some "a_R1.fastq"
  ∧ Event.exec (assembleCmdOf envAll cfgBase) (some (runDirOf envAll cfgBase))
      ∈ (mainModel envAll cfgBase).1 :=
  ⟨(c8_assembly_order.1 "python3" "/opt/presto/AssemblePairs.py" "a_R1.fastq"
      "a_R2.fastq" "illumina" "tail" "out" "log" false false).2.1,
   (c8_assembly_order.1 "python3" "/opt/presto/AssemblePairs.py" "a_R1.fastq"
      "a_R2.fastq" "illumina" "tail" "out" "log" false true).2.1,
   c8_assembly_order.2 envAll cfgBase (by decide) (by decide) (by decide)
      (by decide)⟩
